import Mathlib

/-!
Shallow embedding of the zenfolio static-site generator's content pipeline
(`src/zenfolio/zenfolio.py`, `content.py`, `parsers/base_parser.py`,
`seo_utils.py`, `utils.py`), together with theorems checking the
natural-language specification against it.

Python dictionaries are modelled as association lists over a small value
type `Val`; Python truthiness is modelled by `Val.truthy`.  Functions that
the pipeline only calls through (markdown rendering, theme component
rendering, per-entity validation) are taken as parameters, exactly at the
call boundary the source uses.
-/

namespace Zenfolio

/-- Values stored in a content dictionary: strings, booleans, `None`,
or a list of strings (e.g. `interests`). -/
inductive Val where
  | vstr (s : String)
  | vbool (b : Bool)
  | vnone
  | vlist (l : List String)
  deriving DecidableEq, Repr

/-- A Python dict modelled as an association list (keys unique in practice;
`lookup` reads the first occurrence, `set` replaces the first occurrence). -/
abbrev Dict := List (String × Val)

/-- Python truthiness for `Val`: empty string, `False`, `None` and the empty
list are falsy. -/
def Val.truthy : Val → Bool
  | .vstr s => s ≠ ""
  | .vbool b => b
  | .vnone => false
  | .vlist l => l ≠ []

/-- First-occurrence lookup, i.e. `d.get(k)` returning `none` when absent. -/
def dlookup (k : String) : Dict → Option Val
  | [] => none
  | (k', v) :: d => if k' = k then some v else dlookup k d

/-- `d[k] = v`: replace the (first) binding of `k`, or append a new one —
the model of Python dict assignment. -/
def dset (d : Dict) (k : String) (v : Val) : Dict :=
  match d with
  | [] => [(k, v)]
  | (k', v') :: d' => if k' = k then (k, v) :: d' else (k', v') :: dset d' k v

/-! ## Path / URL resolution (`utils.is_external_url`, `ZenFolio._resolve_path`) -/

/-- Python `s.startswith(pre)`: `pre`'s characters are a prefix of `s`'s. -/
def pyStartsWith (s pre : String) : Bool :=
  pre.data.isPrefixOf s.data

/-- Drop the first `n` characters of a string (`s[n:]`). -/
def pyDrop (s : String) (n : Nat) : String :=
  ⟨s.data.drop n⟩

/-- `utils.is_external_url`: `path.startswith(('http://', 'https://',
'mailto:', 'tel:'))`. -/
def is_external_url (path : String) : Bool :=
  pyStartsWith path "http://" || pyStartsWith path "https://" ||
    pyStartsWith path "mailto:" || pyStartsWith path "tel:"

/-- `ZenFolio._resolve_path`: external URLs pass through unchanged, local
paths have a leading `static/` removed (`str.removeprefix`). -/
def resolve_path (path : String) : String :=
  if is_external_url path then path
  else if pyStartsWith path "static/" then pyDrop path 7 else path

/-! ## Homepage publication selection (`ZenFolio._build_home_page`) -/

/-- `pub.get('highlight', False)` used as a condition. -/
def pub_highlight (d : Dict) : Bool :=
  ((dlookup "highlight" d).getD (.vbool false)).truthy

/-- The homepage publication selection of `_build_home_page`
(`zenfolio.py` lines 431–443): all highlighted publications when the
configured count is `None`, otherwise highlighted publications truncated to
the count and filled from the non-highlighted ones. -/
def homepage_pubs (publications : List Dict) (pub_count : Option Nat) : List Dict :=
  let highlighted_pubs := publications.filter pub_highlight
  let recent_pubs := publications.filter (fun d => ! pub_highlight d)
  match pub_count with
  | none => highlighted_pubs
  | some n =>
    let hp := highlighted_pubs.take n
    if hp.length < n then hp ++ recent_pubs.take (n - hp.length) else hp

/-- The selection as the specification words it: highlighted publications
truncated to the count, filled with non-highlighted ones up to the count,
and with no truncation at all (neither of the highlighted list nor of the
fill) when the count is unbounded.  Written from the spec, to be compared
with `homepage_pubs`. -/
def homepage_pubs_specification (publications : List Dict) (pub_count : Option Nat) :
    List Dict :=
  let highlighted_pubs := publications.filter pub_highlight
  let recent_pubs := publications.filter (fun d => ! pub_highlight d)
  match pub_count with
  | none => highlighted_pubs ++ recent_pubs
  | some n =>
    (highlighted_pubs.take n) ++
      recent_pubs.take (n - (highlighted_pubs.take n).length)

/-! ## Group-by key ordering on list pages (`ZenFolio._build_list_page`) -/

/-- Whitespace accepted (and stripped) by Python `int(str)`. -/
def isPySpace (c : Char) : Bool :=
  c = ' ' || c = '\t' || c = '\n' || c = '\r' || c = '\x0b' || c = '\x0c'

/-- Digit tail of a Python integer literal: digits, optionally separated by
single underscores. -/
def pyIntDigitsGo : List Char → Nat → Option Nat
  | [], acc => some acc
  | '_' :: c :: cs, acc =>
    if c.isDigit then pyIntDigitsGo cs (acc * 10 + (c.toNat - 48)) else none
  | ['_'], _ => none
  | c :: cs, acc =>
    if c.isDigit then pyIntDigitsGo cs (acc * 10 + (c.toNat - 48)) else none

/-- Unsigned digit string of a Python integer literal (non-empty, must
start with a digit). -/
def pyIntDigits : List Char → Option Nat
  | [] => none
  | c :: cs => if c.isDigit then pyIntDigitsGo cs (c.toNat - 48) else none

/-- Python `int(s)` on a string: strip whitespace, optional sign, decimal
digits (single underscores allowed between digits); `none` models the
`ValueError` that `sorted(keys, key=int)` turns into the lexicographic
fallback. -/
def pyToInt (s : String) : Option Int :=
  let cs := ((s.data.dropWhile isPySpace).reverse.dropWhile isPySpace).reverse
  match cs with
  | '-' :: rest => (pyIntDigits rest).map (fun n => -(n : Int))
  | '+' :: rest => (pyIntDigits rest).map (fun n => (n : Int))
  | rest => (pyIntDigits rest).map (fun n => (n : Int))

/-- The numeric value `sorted(..., key=int)` sorts by (only used when
`pyToInt` succeeds on every key). -/
def key_int (k : String) : Int := (pyToInt k).getD 0

/-- `_build_list_page`'s ordering of group keys (`zenfolio.py` lines
548–551): `sorted(keys, key=int, reverse=True)` when every key parses as an
integer, otherwise plain `sorted(keys, reverse=True)`.  Both Python sorts
are stable, so the stable `insertionSort` is an exact model. -/
def sorted_group_keys (keys : List String) : List String :=
  if keys.all (fun k => (pyToInt k).isSome) then
    @List.insertionSort String (fun a b => key_int b ≤ key_int a)
      (fun _ _ => Int.decLe _ _) keys
  else
    keys.insertionSort (fun a b => b ≤ a)

/-- The group keys of `_build_list_page`'s `grouped_items` dict: for each
item, `key = item.get(group_by)`; truthy keys only, first occurrence order,
no duplicates (dict keys).  This pipeline's group keys are strings (the
case the specification's sort claim quantifies over). -/
def group_keys_go (gb : String) (seen : List String) : List Dict → List String
  | [] => []
  | d :: ds =>
    match dlookup gb d with
    | some (.vstr s) =>
      if s ≠ "" ∧ s ∉ seen then s :: group_keys_go gb (s :: seen) ds
      else group_keys_go gb seen ds
    | _ => group_keys_go gb seen ds

/-- Group keys of a list page, in first-occurrence order. -/
def group_keys (gb : String) (items : List Dict) : List String :=
  group_keys_go gb [] items

/-! ## Blog post loading (`Content._safe_parse_blog_posts`) -/

/-- A parser's raw result for one blog file: a `metadata` mapping plus a
`content` string (and possibly a top-level `content_type`). -/
structure RawPost where
  metadata : Dict
  content : String
  content_type : Option String
  deriving Repr

/-- The flattening step of `_safe_parse_blog_posts` (content.py lines
113–117): `metadata.copy()` plus `content` and `content_type` (defaulting
to `"markdown"`). -/
def flatten_post (r : RawPost) : Dict :=
  dset (dset r.metadata "content" (.vstr r.content)) "content_type"
    (.vstr (r.content_type.getD "markdown"))

/-- Raw posts of all `blog_post`-capable parsers, merged in registration
order (the loop over `get_parsers_for_content_type('blog_post')`). -/
def merged_raw_posts (parser_outputs : List (List RawPost)) : List Dict :=
  (parser_outputs.map (fun l => l.map flatten_post)).flatten

/-- The seen-set deduplication loop (content.py lines 125–131): keep a post
only when its slug is truthy and not seen before. -/
def dedup_posts_go (seen : List Val) : List Dict → List Dict
  | [] => []
  | p :: ps =>
    match dlookup "slug" p with
    | some v =>
      if v.truthy ∧ v ∉ seen then p :: dedup_posts_go (v :: seen) ps
      else dedup_posts_go seen ps
    | none => dedup_posts_go seen ps

/-- Slug deduplication, first occurrence wins. -/
def dedup_posts (posts : List Dict) : List Dict :=
  dedup_posts_go [] posts

/-- `_safe_parse_blog_posts`: merge, dedup, then validate each post into a
typed `BlogPost` (`validate` models `BlogPost(**raw_post, ...)` followed by
`to_dict()`, returning `none` on a validation exception, which the loop
skips). -/
def safe_parse_blog_posts (parser_outputs : List (List RawPost))
    (validate : Dict → Option Dict) : List Dict :=
  (dedup_posts (merged_raw_posts parser_outputs)).filterMap validate

/-! ## Parser registry (`parsers/base_parser.py`) -/

/-- A file path, abstracted to what the registry inspects: its
`Path.suffix` (extension with the dot) and an identifier. -/
structure PFile where
  suffix : String
  fid : Nat
  deriving DecidableEq, Repr

/-- A registered parser: identity, declared `supported_extensions`, and its
`can_parse` predicate.  `pid` models Python object identity (the registry's
`not in` checks). -/
structure Parser where
  pid : Nat
  exts : List String
  canParse : PFile → Bool

/-- Python `str.lower()` (ASCII, which covers file extensions). -/
def pyToLower (s : String) : String :=
  ⟨s.data.map Char.toLower⟩

/-- `ParserRegistry` state: the registered parsers (in order) and the
extension index. -/
structure Registry where
  parsers : List Parser
  extMap : List (String × List Parser)

/-- Association-list lookup in the extension index. -/
def lookupExt (e : String) : List (String × List Parser) → Option (List Parser)
  | [] => none
  | (e', l) :: m => if e' = e then some l else lookupExt e m

/-- The candidate parsers the extension index holds for an extension
(empty when the key is absent, which the lookup loop treats the same). -/
def ext_candidates (r : Registry) (e : String) : List Parser :=
  (lookupExt e r.extMap).getD []

/-- One step of `register`'s extension-map update: create the key if
needed, then append the parser unless already present. -/
def addParserToExt (m : List (String × List Parser)) (ext : String) (p : Parser) :
    List (String × List Parser) :=
  match m with
  | [] => [(ext, [p])]
  | (e, l) :: rest =>
    if e = ext then
      (e, if l.any (fun q => q.pid = p.pid) then l else l ++ [p]) :: rest
    else (e, l) :: addParserToExt rest ext p

/-- `ParserRegistry.register`: idempotent by parser identity; appends the
parser and indexes each of its declared extensions. -/
def register (r : Registry) (p : Parser) : Registry :=
  if r.parsers.any (fun q => q.pid = p.pid) then r
  else
    ⟨r.parsers ++ [p], p.exts.foldl (fun m e => addParserToExt m e p) r.extMap⟩

/-- Register a list of parsers into an empty registry, in order. -/
def register_all (ps : List Parser) : Registry :=
  ps.foldl register ⟨[], []⟩

/-- `ParserRegistry.get_parser_for_file`: lowercase the file's suffix; scan
the extension index's candidates for the first whose `can_parse` accepts;
fall back to scanning every registered parser; return `none` (no error)
when nothing matches. -/
def get_parser_for_file (r : Registry) (f : PFile) : Option Parser :=
  let extension := pyToLower f.suffix
  match (ext_candidates r extension).find? (fun p => p.canParse f) with
  | some p => some p
  | none => r.parsers.find? (fun p => p.canParse f)

/-- The lookup as the specification words it: the first pass restricts to
parsers declaring the file's extension compared case-insensitively (both
sides case-normalized).  Written from the spec, to be compared with
`get_parser_for_file`. -/
def get_parser_for_file_claim (ps : List Parser) (f : PFile) : Option Parser :=
  let extension := pyToLower f.suffix
  match (ps.filter (fun p => p.exts.any (fun e => pyToLower e = extension))).find?
      (fun p => p.canParse f) with
  | some p => some p
  | none => ps.find? (fun p => p.canParse f)

/-- A parser declaring only `.txt`, accepting every file. -/
def parserTxt : Parser := ⟨0, [".txt"], fun _ => true⟩

/-- A parser declaring the upper-case extension `.MD`, accepting every
file. -/
def parserUpperMd : Parser := ⟨1, [".MD"], fun _ => true⟩

/-- A file named with the upper-case extension `.MD`. -/
def fileUpperMd : PFile := ⟨".MD", 0⟩

/-! ## Item processing (`ZenFolio._process_items`) -/

/-- The two schema generators `_process_items` may call on an item
(`SEOGenerator.generate_scholarly_article_schema` /
`generate_software_application_schema`), abstracted at the call
boundary. -/
structure SeoGen where
  article : Dict → String
  app : Dict → String

/-- `_resolve_item_paths`'s allow-list of path-valued fields. -/
def path_fields : List String :=
  ["photo", "image", "paper", "code", "slides", "video", "website", "demo",
    "release_notes", "documentation", "tutorial_page", "materials",
    "project_page", "github", "cv"]

/-- The rewrite `_resolve_item_paths` applies to one field: a truthy
string value of an allow-listed key goes through `resolve_path` (which is
total, so the `except` branch that nulls a field never fires); everything
else is untouched. -/
def resolve_entry (k : String) (v : Val) : Val :=
  match v with
  | .vstr s =>
    if path_fields.contains k && (s != "") then .vstr (resolve_path s) else .vstr s
  | v => v

/-- `ZenFolio._resolve_item_paths`: rewrite each field's value in place. -/
def resolve_item_paths (d : Dict) : Dict :=
  d.map (fun kv => (kv.1, resolve_entry kv.1 kv.2))

/-- The markdown-field keys `_process_items` rewrites. -/
def markdown_keys : List String := ["content", "description", "excerpt"]

/-- One iteration of the markdown-field loop: rewrite a truthy string value
through the content processor `md`, except the deferred blog-post body and
service-item descriptions. -/
def process_markdown_key (md : String → String) (item_type : String)
    (skip_content : Bool) (k : String) (d : Dict) : Dict :=
  match dlookup k d with
  | some (.vstr s) =>
    if s != "" then
      if skip_content && (k == "content") then d
      else if (item_type == "service_item") && (k == "description") then d
      else dset d k (.vstr (md s))
    else d
  | _ => d

/-- The `template_type` resolution: `item_dict.get('template_name') or
item_type`. -/
def template_type_of (item_type : String) (d : Dict) : Val :=
  match dlookup "template_name" d with
  | some v => if v.truthy then v else .vstr item_type
  | none => .vstr item_type

/-- `item_dict['content_raw'] = item_dict['content']` when `content` is
present and `content_raw` is not — the raw-preservation step that runs
before any transformation. -/
def store_raw (item : Dict) : Dict :=
  match dlookup "content" item, dlookup "content_raw" item with
  | some v, none => dset item "content_raw" v
  | _, _ => item

/-- The markdown-field loop over `['content', 'description', 'excerpt']`,
with `content_type` and the blog-post deferral computed as in the source. -/
def markdown_phase (md : String → String) (item_type : String) (d2 : Dict) : Dict :=
  let content_type : Val := (dlookup "content_type" d2).getD (.vstr item_type)
  let skip_content : Bool :=
    (item_type == "blog_post_item") || (content_type == Val.vstr "blog_post_item")
  process_markdown_key md item_type skip_content "excerpt"
    (process_markdown_key md item_type skip_content "description"
      (process_markdown_key md item_type skip_content "content" d2))

/-- One iteration of `_process_items`'s loop (`zenfolio.py` lines
104–159): preserve raw content, resolve paths, render markdown fields,
resolve `template_type`, pre-render HTML, attach the SEO schema.  `md`
models `_process_content_field`, `render` models
`theme.render_component`. -/
def process_item (md : String → String) (render : Val → Dict → String)
    (seo : Option SeoGen) (item_type : String) (item : Dict) : Dict :=
  let d2 := resolve_item_paths (store_raw item)
  let d5 := markdown_phase md item_type d2
  let tt : Val := template_type_of item_type d5
  let d6 := dset d5 "template_type" tt
  let d7 := if tt.truthy then dset d6 "rendered_html" (.vstr (render tt d6)) else d6
  let d8 := dset d7 "rendered_schema" (.vstr "")
  match seo with
  | some g =>
    if item_type == "publication_item" then
      dset d8 "rendered_schema" (.vstr (g.article d8))
    else if item_type == "project_item" then
      dset d8 "rendered_schema" (.vstr (g.app d8))
    else d8
  | none => d8

/-- `ZenFolio._process_items` over a list of items (already normalized to
dicts; `to_dict()` conversion happens before this point). -/
def process_items (md : String → String) (render : Val → Dict → String)
    (seo : Option SeoGen) (item_type : String) (items : List Dict) : List Dict :=
  items.map (process_item md render seo item_type)

/-! ## Bio loading (`Content._safe_parse_bio_data`) -/

/-- The author fields `_safe_parse_bio_data` reads from the site
configuration, each `hasattr`-guarded. -/
structure AuthorView where
  interests : Option (List String)
  title : Option String
  affiliation : Option String

/-- A successful `parse_file` result for the bio entry file. -/
structure BioRaw where
  metadata : Dict
  content : String

/-- `Bio().to_dict()`: the all-empty default bio. -/
def bio_empty : Dict :=
  [("bio", .vstr ""), ("tagline", .vstr ""), ("interests", .vlist [])]

/-- The site-configuration fallback bio (content.py lines 56–62). -/
def bio_from_config (a : AuthorView) : Dict :=
  [("bio", .vstr ""),
    ("interests", .vlist (a.interests.getD [])),
    ("title", .vstr (a.title.getD "")),
    ("affiliation", .vstr (a.affiliation.getD ""))]

/-- `Content._safe_parse_bio_data`.  `parserFound` is whether
`get_parser_for_file` returned a parser; `parse_result` is `parse_file`'s
outcome (`none` for a missing file or a parse failure, both of which the
markdown parser reports as an empty dict); `validate` models
`Bio(**bio_data)` + `to_dict()`, `none` for a validation exception (caught
by the enclosing `except`, which returns the empty default); `cfg_author`
is `none` when the configuration has no author (in which case the parsed
branch's attribute access raises and is likewise caught). -/
def safe_parse_bio_data (parserFound : Bool) (parse_result : Option BioRaw)
    (validate : Dict → Option Dict) (cfg_author : Option AuthorView) : Dict :=
  match (if parserFound then parse_result else none) with
  | some raw =>
    match cfg_author with
    | some a =>
      let bio_data := dset raw.metadata "bio" (.vstr raw.content)
      let bio_data := match a.interests with
        | some ints => dset bio_data "interests" (.vlist ints)
        | none =>
          if (dlookup "interests" bio_data).isSome then bio_data
          else dset bio_data "interests" (.vlist [])
      match validate bio_data with
      | some b => b
      | none => bio_empty
    | none => bio_empty
  | none =>
    match cfg_author with
    | some a => bio_from_config a
    | none => bio_empty

/-! ## Meta descriptions (`SEOGenerator.generate_meta_description`) -/

/-- `findCloseGo cs`: inside a candidate tag match (after `<` and at least
one non-`<` character), scan for the closing `>`; fail on `<` or end of
input.  Together with `findClose` this is the leftmost-shortest match of
the pattern `<[^<]+?>` starting at a given `<`. -/
def findCloseGo : List Char → Option (List Char)
  | [] => none
  | c :: cs => if c = '>' then some cs else if c = '<' then none else findCloseGo cs

/-- After a `<`: consume one non-`<` character, then scan for `>`. -/
def findClose : List Char → Option (List Char)
  | [] => none
  | c :: cs => if c = '<' then none else findCloseGo cs

/-- `re.sub('<[^<]+?>', '', s)` on the character list: delete every
leftmost-shortest tag match, resuming after each deletion. -/
def stripTagsList : List Char → List Char
  | [] => []
  | c :: rest =>
    if c = '<' then
      match h : findClose rest with
      | some rest' => stripTagsList rest'
      | none => c :: stripTagsList rest
    else c :: stripTagsList rest
termination_by l => l.length
decreasing_by
  · have hgo : ∀ (cs r : List Char), findCloseGo cs = some r →
        r.length < cs.length := by
      intro cs
      induction cs with
      | nil => intro r hr; simp [findCloseGo] at hr
      | cons c cs ih =>
        intro r hr
        by_cases h1 : c = '>'
        · simp [findCloseGo, h1] at hr
          subst hr
          simp
        · by_cases h2 : c = '<'
          · simp [findCloseGo, h1, h2] at hr
          · simp only [findCloseGo, if_neg h1, if_neg h2] at hr
            exact Nat.lt_succ_of_lt (ih r hr)
    have hfc : rest'.length < cs.length := by
      cases cs with
      | nil => simp [findClose] at h
      | cons c0 cs0 =>
        by_cases h2 : c0 = '<'
        · simp [findClose, h2] at h
        · simp only [findClose, if_neg h2] at h
          exact Nat.lt_succ_of_lt (hgo cs0 rest' h)
    exact Nat.lt_succ_of_lt hfc
  · simp
  · simp

/-- HTML-tag stripping used for blog-post meta descriptions. -/
def strip_html_tags (s : String) : String :=
  ⟨stripTagsList s.data⟩

/-- Python slice `s[:n]` (by characters). -/
def pyTake (s : String) (n : Nat) : String :=
  ⟨s.data.take n⟩

/-- Python `len(s)` (in characters). -/
def pyLen (s : String) : Nat :=
  s.data.length

/-- An ASCII apostrophe, kept out of string literals. -/
def squote : String :=
  ⟨[Char.ofNat 39]⟩

/-- Python `str(v)` / f-string interpolation of a metadata value. -/
def val_str : Val → String
  | .vstr s => s
  | .vbool true => "True"
  | .vbool false => "False"
  | .vnone => "None"
  | .vlist l =>
    "[" ++ String.intercalate ", " (l.map (fun x => squote ++ x ++ squote)) ++ "]"

/-- The configuration fields `generate_meta_description` reads. -/
structure SeoCfg where
  author_name : String
  interests : List String
  site_description : String

/-- `', '.join(self.config.author.interests[:3])`. -/
def interests3 (cfg : SeoCfg) : String :=
  String.intercalate ", " (cfg.interests.take 3)

/-- `SEOGenerator.generate_meta_description` (seo_utils.py lines 236–270).
An `item` that is `none` or an empty dict is falsy.  A truthy non-string
`excerpt` would make `re.sub` raise in Python; the model keeps only the
string (and absent/falsy) cases, which is all the pipeline produces. -/
def generate_meta_description (cfg : SeoCfg) (page_type : String)
    (item : Option Dict) : String :=
  let item_truthy : Bool := match item with
    | some d => d != ([] : Dict)
    | none => false
  if page_type == "homepage" then cfg.site_description
  else if page_type == "publications" then
    "Research publications by " ++ cfg.author_name ++ ", covering " ++
      interests3 cfg ++ " and more."
  else if page_type == "blog" then
    "Insights and thoughts on " ++ interests3 cfg ++ " by " ++
      cfg.author_name ++ "."
  else if (page_type == "blog_post") && item_truthy then
    let it := item.getD []
    match dlookup "excerpt" it with
    | some (.vstr e) =>
      if e != "" then
        let clean := strip_html_tags e
        pyTake clean 155 ++ (if 155 < pyLen clean then "..." else "")
      else
        "A blog post by " ++ cfg.author_name ++ " about " ++
          (match dlookup "title" it with
            | some v => val_str v
            | none => "research and development") ++ "."
    | _ =>
      "A blog post by " ++ cfg.author_name ++ " about " ++
        (match dlookup "title" it with
          | some v => val_str v
          | none => "research and development") ++ "."
  else if (page_type == "publication") && item_truthy then
    let it := item.getD []
    "A " ++ (match dlookup "year" it with
      | some v => val_str v
      | none => "recent") ++ " publication by " ++ cfg.author_name ++
      " et al. in " ++ (match dlookup "venue" it with
        | some v => val_str v
        | none => "a leading journal") ++ ", titled " ++ squote ++
      (match dlookup "title" it with
        | some v => val_str v
        | none => "") ++ squote ++ "."
  else if page_type == "projects" then
    "Research projects and open-source contributions by " ++
      cfg.author_name ++ " in " ++ interests3 cfg ++ "."
  else if page_type == "talks" then
    "Conference talks and presentations by " ++ cfg.author_name ++ " on " ++
      interests3 cfg ++ "."
  else if page_type == "news" then
    "Latest news and updates from " ++ cfg.author_name ++ squote ++
      "s research and academic activities."
  else cfg.site_description

/-! # Theorems -/

theorem dlookup_dset_self (d : Dict) (k : String) (v : Val) :
    dlookup k (dset d k v) = some v := by
  induction d with
  | nil => simp [dset, dlookup]
  | cons hd tl ih =>
    obtain ⟨k', v'⟩ := hd
    by_cases h : k' = k <;> simp [dset, dlookup, h, ih]

theorem dlookup_dset_other (d : Dict) (k k' : String) (v : Val) (h : k' ≠ k) :
    dlookup k' (dset d k v) = dlookup k' d := by
  have h' : ¬ k = k' := fun hh => h hh.symm
  induction d with
  | nil => simp [dset, dlookup, h']
  | cons hd tl ih =>
    obtain ⟨k₀, v₀⟩ := hd
    by_cases h₀ : k₀ = k
    · subst h₀
      simp [dset, dlookup, h']
    · by_cases h₁ : k₀ = k' <;> simp [dset, dlookup, h₀, h₁, ih, h]

/-- C7: `resolve_path` returns external URLs (scheme `http(s)`, `mailto:`,
`tel:`) unchanged; a local path with a leading `static/` prefix is returned
with that prefix stripped (the remainder after `static/`); any other local
path is returned unchanged. -/
theorem resolve_path_correct (p : String) :
    (is_external_url p = true → resolve_path p = p) ∧
    (is_external_url p = false →
      (pyStartsWith p "static/" = true ∧
        ∃ r, p = "static/" ++ r ∧ resolve_path p = r) ∨
      (pyStartsWith p "static/" = false ∧ resolve_path p = p)) := by
  constructor
  · intro h
    simp [resolve_path, h]
  · intro h
    by_cases hs : pyStartsWith p "static/" = true
    · left
      refine ⟨hs, pyDrop p 7, ?_, ?_⟩
      · have hpre : "static/".data <+: p.data := by
          simpa [pyStartsWith, List.isPrefixOf_iff_prefix] using hs
        obtain ⟨t, ht⟩ := hpre
        have hlen : "static/".data.length = 7 := by decide
        have hdrop : (pyDrop p 7).data = t := by
          simp only [pyDrop]
          rw [← ht, ← hlen, List.drop_left]
        apply String.ext
        rw [String.data_append, hdrop, ht]
      · simp [resolve_path, h, hs]
    · right
      refine ⟨by simpa using hs, ?_⟩
      simp [resolve_path, h, hs]

/-- Witness for C7 at the specification's three concrete examples. -/
theorem resolve_path_correct_witness :
    (is_external_url "https://x.com/y" = true ∧
      resolve_path "https://x.com/y" = "https://x.com/y") ∧
    (∃ r, "static/img.png" = "static/" ++ r ∧
      resolve_path "static/img.png" = r) ∧
    resolve_path "img.png" = "img.png" := by
  refine ⟨⟨by decide, (resolve_path_correct _).1 (by decide)⟩, ?_, ?_⟩
  · rcases (resolve_path_correct "static/img.png").2 (by decide) with h | h
    · exact h.2
    · exact absurd h.1 (by decide)
  · rcases (resolve_path_correct "img.png").2 (by decide) with h | h
    · exact absurd h.1 (by decide)
    · exact h.2

/-- C1 counterexample: with one highlighted and one non-highlighted
publication and an unbounded (`None`) count, the code selects only the
highlighted publication, while the claim's untruncated selection would also
include the non-highlighted one. -/
theorem homepage_pubs_counterexample :
    homepage_pubs
        [[("title", Val.vstr "h1"), ("highlight", Val.vbool true)],
          [("title", Val.vstr "r1")]] none ≠
      homepage_pubs_specification
        [[("title", Val.vstr "h1"), ("highlight", Val.vbool true)],
          [("title", Val.vstr "r1")]] none := by
  decide

/-- C1 amended: for a configured count `n` the homepage publication list is
the highlighted publications (in order) truncated to `n`, filled with
non-highlighted publications up to `n` (never more than `n` items); when
the count is `None` the selection is all highlighted publications,
untruncated, with no non-highlighted fill.  In particular, with 5
publications of which 2 are highlighted and `n = 3`, the result is the 2
highlighted plus the first (most recent) non-highlighted, in that order. -/
theorem homepage_pubs_amended_correct (publications : List Dict) (n : Nat) :
    (homepage_pubs publications (some n) =
        (publications.filter pub_highlight).take n ++
          (publications.filter (fun d => ! pub_highlight d)).take
            (n - ((publications.filter pub_highlight).take n).length) ∧
      (homepage_pubs publications (some n)).length ≤ n) ∧
    homepage_pubs publications none = publications.filter pub_highlight ∧
    homepage_pubs
        [[("title", Val.vstr "r2025")],
          [("title", Val.vstr "h2024"), ("highlight", Val.vbool true)],
          [("title", Val.vstr "r2023")],
          [("title", Val.vstr "h2022"), ("highlight", Val.vbool true)],
          [("title", Val.vstr "r2021")]] (some 3) =
      [[("title", Val.vstr "h2024"), ("highlight", Val.vbool true)],
        [("title", Val.vstr "h2022"), ("highlight", Val.vbool true)],
        [("title", Val.vstr "r2025")]] := by
  have heq : homepage_pubs publications (some n) =
      (publications.filter pub_highlight).take n ++
        (publications.filter (fun d => ! pub_highlight d)).take
          (n - ((publications.filter pub_highlight).take n).length) := by
    simp only [homepage_pubs]
    split
    · rfl
    · rename_i hge
      have h0 : n - ((publications.filter pub_highlight).take n).length = 0 := by
        omega
      rw [h0]
      simp
  refine ⟨⟨heq, ?_⟩, rfl, by decide⟩
  rw [heq]
  have h1 : ((publications.filter pub_highlight).take n).length ≤ n := by
    simp [List.length_take]
  have h2 :
      ((publications.filter (fun d => ! pub_highlight d)).take
          (n - ((publications.filter pub_highlight).take n).length)).length ≤
        n - ((publications.filter pub_highlight).take n).length := by
    simp [List.length_take]
  rw [List.length_append]
  omega

/-- C6: group keys of a grouped list page are ordered descending
numerically when every key is a numeric string, and descending
lexicographically otherwise; the ordering permutes the keys; e.g. year keys
`["2019", "2023", "2021"]` come out as `["2023", "2021", "2019"]`. -/
theorem list_page_group_order (items : List Dict) (gb : String) :
    ((group_keys gb items).all (fun k => (pyToInt k).isSome) = true →
      (sorted_group_keys (group_keys gb items)).Pairwise
          (fun a b => key_int b ≤ key_int a) ∧
        List.Perm (sorted_group_keys (group_keys gb items)) (group_keys gb items)) ∧
    ((group_keys gb items).all (fun k => (pyToInt k).isSome) = false →
      (sorted_group_keys (group_keys gb items)).Pairwise
          (fun a b : String => b ≤ a) ∧
        List.Perm (sorted_group_keys (group_keys gb items)) (group_keys gb items)) ∧
    sorted_group_keys ["2019", "2023", "2021"] = ["2023", "2021", "2019"] := by
  refine ⟨fun hnum => ⟨?_, ?_⟩, fun hnonnum => ⟨?_, ?_⟩, by decide⟩
  · haveI htot : IsTotal String (fun a b => key_int b ≤ key_int a) :=
      ⟨fun a b => (le_total (key_int a) (key_int b)).symm⟩
    haveI htrans : IsTrans String (fun a b => key_int b ≤ key_int a) :=
      ⟨fun _ _ _ hab hbc => le_trans hbc hab⟩
    simpa [sorted_group_keys, hnum] using
      @List.sorted_insertionSort String (fun a b => key_int b ≤ key_int a)
        (fun _ _ => Int.decLe _ _) htot htrans (group_keys gb items)
  · simpa [sorted_group_keys, hnum] using
      @List.perm_insertionSort String (fun a b => key_int b ≤ key_int a)
        (fun _ _ => Int.decLe _ _) (group_keys gb items)
  · haveI htot : IsTotal String (fun a b : String => b ≤ a) :=
      ⟨fun a b => (le_total a b).symm⟩
    haveI htrans : IsTrans String (fun a b : String => b ≤ a) :=
      ⟨fun _ _ _ hab hbc => le_trans hbc hab⟩
    simpa [sorted_group_keys, hnonnum] using
      List.sorted_insertionSort (fun a b : String => b ≤ a) (group_keys gb items)
  · simpa [sorted_group_keys, hnonnum] using
      List.perm_insertionSort (fun a b : String => b ≤ a) (group_keys gb items)

/-- Witness for C6: three publications with years 2019, 2023, 2021; every
key is numeric, and the sorted group keys are 2023, 2021, 2019. -/
theorem list_page_group_order_witness :
    (group_keys "year"
          [[("year", Val.vstr "2019")], [("year", Val.vstr "2023")],
            [("year", Val.vstr "2021")]]).all
        (fun k => (pyToInt k).isSome) = true ∧
    List.Perm
      (sorted_group_keys
        (group_keys "year"
          [[("year", Val.vstr "2019")], [("year", Val.vstr "2023")],
            [("year", Val.vstr "2021")]]))
      (group_keys "year"
        [[("year", Val.vstr "2019")], [("year", Val.vstr "2023")],
          [("year", Val.vstr "2021")]]) :=
  ⟨by decide,
    ((list_page_group_order
          [[("year", Val.vstr "2019")], [("year", Val.vstr "2023")],
            [("year", Val.vstr "2021")]] "year").1 (by decide)).2⟩

theorem dedup_posts_go_filter (v : Val) (hv : v.truthy = true) (posts : List Dict) :
    ∀ seen : List Val,
      (v ∉ seen →
        (dedup_posts_go seen posts).filter
            (fun p => decide (dlookup "slug" p = some v)) =
          (posts.filter (fun p => decide (dlookup "slug" p = some v))).take 1) ∧
      (v ∈ seen →
        (dedup_posts_go seen posts).filter
            (fun p => decide (dlookup "slug" p = some v)) = []) := by
  induction posts with
  | nil =>
    intro seen
    exact ⟨fun _ => by simp [dedup_posts_go], fun _ => by simp [dedup_posts_go]⟩
  | cons p ps ih =>
    intro seen
    constructor
    · intro hns
      cases hl : dlookup "slug" p with
      | none =>
        have h1 := (ih seen).1 hns
        have hp : decide (dlookup "slug" p = some v) = false := by simp [hl]
        simp only [dedup_posts_go, hl]
        rw [h1, List.filter_cons, hp]
        simp
      | some w =>
        by_cases hw : w.truthy ∧ w ∉ seen
        · by_cases hwv : w = v
          · subst hwv
            have h2 := (ih (w :: seen)).2 (List.mem_cons_self w seen)
            have hp : decide (dlookup "slug" p = some w) = true := by simp [hl]
            simp only [dedup_posts_go, hl, if_pos hw]
            rw [List.filter_cons, hp, List.filter_cons, hp]
            simp [h2]
          · have hvw : v ∉ (w :: seen) := by
              intro hmem
              rcases List.mem_cons.1 hmem with h | h
              · exact hwv h.symm
              · exact hns h
            have h1 := (ih (w :: seen)).1 hvw
            have hp : decide (dlookup "slug" p = some v) = false := by
              simp [hl, hwv]
            simp only [dedup_posts_go, hl, if_pos hw]
            rw [List.filter_cons, hp, List.filter_cons, hp]
            simp [h1]
        · have hwv : ¬ w = v := by
            intro hh
            subst hh
            exact hw ⟨hv, hns⟩
          have h1 := (ih seen).1 hns
          have hp : decide (dlookup "slug" p = some v) = false := by
            simp [hl, hwv]
          simp only [dedup_posts_go, hl, if_neg hw]
          rw [h1, List.filter_cons, hp]
          simp
    · intro hin
      cases hl : dlookup "slug" p with
      | none =>
        simp only [dedup_posts_go, hl]
        exact (ih seen).2 hin
      | some w =>
        by_cases hw : w.truthy ∧ w ∉ seen
        · have hwv : ¬ w = v := fun hh => (hh ▸ hw.2) hin
          have h2 := (ih (w :: seen)).2 (List.mem_cons_of_mem _ hin)
          have hp : decide (dlookup "slug" p = some v) = false := by
            simp [hl, hwv]
          simp only [dedup_posts_go, hl, if_pos hw]
          rw [List.filter_cons, hp]
          simp [h2]
        · simp only [dedup_posts_go, hl, if_neg hw]
          exact (ih seen).2 hin

/-- C2: merging the registration-ordered parser outputs, the loader keeps
exactly the first post for each (truthy) slug value — the deduplicated
list's posts with slug `v` are the first such post of the merged sequence —
and a post whose validation fails is skipped without dropping the posts
whose validation succeeds. -/
theorem blog_posts_dedup_correct (parser_outputs : List (List RawPost))
    (validate : Dict → Option Dict) (v : Val) (hv : v.truthy = true) :
    (dedup_posts (merged_raw_posts parser_outputs)).filter
        (fun p => decide (dlookup "slug" p = some v)) =
      ((merged_raw_posts parser_outputs).filter
          (fun p => decide (dlookup "slug" p = some v))).take 1 ∧
    ∀ p ∈ dedup_posts (merged_raw_posts parser_outputs), ∀ e, validate p = some e →
      e ∈ safe_parse_blog_posts parser_outputs validate := by
  constructor
  · exact (dedup_posts_go_filter v hv _ []).1 (by simp)
  · intro p hp e he
    exact List.mem_filterMap.2 ⟨p, hp, he⟩

/-- Witness for C2: two parsers both produce a post with slug `"a"`; the
deduplicated output keeps exactly the first parser's post, and its
validated form is in the final list. -/
theorem blog_posts_dedup_correct_witness :
    (Val.vstr "a").truthy = true ∧
    (dedup_posts (merged_raw_posts
          [[⟨[("slug", Val.vstr "a"), ("title", Val.vstr "first")], "c1", none⟩],
            [⟨[("slug", Val.vstr "a"), ("title", Val.vstr "second")], "c2", none⟩]])).filter
        (fun p => decide (dlookup "slug" p = some (Val.vstr "a"))) =
      ((merged_raw_posts
          [[⟨[("slug", Val.vstr "a"), ("title", Val.vstr "first")], "c1", none⟩],
            [⟨[("slug", Val.vstr "a"), ("title", Val.vstr "second")], "c2", none⟩]]).filter
          (fun p => decide (dlookup "slug" p = some (Val.vstr "a")))).take 1 :=
  ⟨by decide,
    (blog_posts_dedup_correct
        [[⟨[("slug", Val.vstr "a"), ("title", Val.vstr "first")], "c1", none⟩],
          [⟨[("slug", Val.vstr "a"), ("title", Val.vstr "second")], "c2", none⟩]]
        some (Val.vstr "a") (by decide)).1⟩

theorem dedup_posts_go_slug (posts : List Dict) :
    ∀ seen, ∀ p ∈ dedup_posts_go seen posts,
      ∃ s, dlookup "slug" p = some s ∧ s.truthy = true := by
  induction posts with
  | nil =>
    intro seen p hp
    simp [dedup_posts_go] at hp
  | cons q ps ih =>
    intro seen p hp
    cases hl : dlookup "slug" q with
    | none =>
      simp only [dedup_posts_go, hl] at hp
      exact ih seen p hp
    | some w =>
      by_cases hw : w.truthy ∧ w ∉ seen
      · simp only [dedup_posts_go, hl, if_pos hw] at hp
        rcases List.mem_cons.1 hp with rfl | hp
        · exact ⟨w, hl, hw.1⟩
        · exact ih _ p hp
      · simp only [dedup_posts_go, hl, if_neg hw] at hp
        exact ih seen p hp

/-- C9: every post surviving deduplication has a truthy (in particular,
for string slugs, non-empty) slug — posts with a missing or empty slug are
dropped — and every entry of the final `blog_posts` list is the validation
of such a post. -/
theorem blog_posts_slug_nonempty (parser_outputs : List (List RawPost))
    (validate : Dict → Option Dict) :
    (∀ p ∈ dedup_posts (merged_raw_posts parser_outputs),
      ∃ s, dlookup "slug" p = some s ∧ s.truthy = true ∧
        ∀ str, s = Val.vstr str → str ≠ "") ∧
    (∀ e ∈ safe_parse_blog_posts parser_outputs validate,
      ∃ p, p ∈ dedup_posts (merged_raw_posts parser_outputs) ∧
        validate p = some e ∧
        ∃ s, dlookup "slug" p = some s ∧ s.truthy = true) := by
  constructor
  · intro p hp
    obtain ⟨s, hs, hst⟩ := dedup_posts_go_slug _ [] p hp
    refine ⟨s, hs, hst, ?_⟩
    rintro str rfl hemp
    subst hemp
    simp [Val.truthy] at hst
  · intro e he
    obtain ⟨p, hp, hv⟩ := List.mem_filterMap.1 he
    obtain ⟨s, hs, hst⟩ := dedup_posts_go_slug _ [] p hp
    exact ⟨p, hp, hv, s, hs, hst⟩

/-- Witness for C9: a merged batch with one post with slug `"a"` and one
with an empty slug; the surviving post has the truthy slug. -/
theorem blog_posts_slug_nonempty_witness :
    dedup_posts (merged_raw_posts
        [[⟨[("slug", Val.vstr "a")], "c1", none⟩,
          ⟨[("slug", Val.vstr "")], "c2", none⟩]]) =
      [[("slug", Val.vstr "a"), ("content", Val.vstr "c1"),
        ("content_type", Val.vstr "markdown")]] ∧
    ∃ s, dlookup "slug"
          [("slug", Val.vstr "a"), ("content", Val.vstr "c1"),
            ("content_type", Val.vstr "markdown")] = some s ∧
        s.truthy = true ∧ ∀ str, s = Val.vstr str → str ≠ "" :=
  ⟨by decide,
    ((blog_posts_slug_nonempty
        [[⟨[("slug", Val.vstr "a")], "c1", none⟩,
          ⟨[("slug", Val.vstr "")], "c2", none⟩]] some).1
      [("slug", Val.vstr "a"), ("content", Val.vstr "c1"),
        ("content_type", Val.vstr "markdown")] (by decide))⟩

theorem lookupExt_addParserToExt (m : List (String × List Parser))
    (ext e : String) (p : Parser) :
    (lookupExt e (addParserToExt m ext p)).getD [] =
      if e = ext then
        (if ((lookupExt e m).getD []).any (fun q => q.pid = p.pid) then
          (lookupExt e m).getD []
        else (lookupExt e m).getD [] ++ [p])
      else (lookupExt e m).getD [] := by
  induction m with
  | nil =>
    by_cases he : e = ext
    · subst he
      simp [addParserToExt, lookupExt]
    · have he' : ¬ ext = e := fun h => he (Eq.symm h)
      simp [addParserToExt, lookupExt, he, he']
  | cons hd m ih =>
    obtain ⟨e₀, l₀⟩ := hd
    by_cases h₀ : e₀ = ext
    · subst h₀
      by_cases he : e₀ = e
      · subst he
        simp [addParserToExt, lookupExt]
      · have he' : ¬ e = e₀ := fun h => he (Eq.symm h)
        simp [addParserToExt, lookupExt, he, he']
    · by_cases he : e₀ = e
      · subst he
        simp [addParserToExt, lookupExt, h₀]
      · simp [addParserToExt, lookupExt, h₀, he, ih]

theorem foldl_addParserToExt (p : Parser) (e : String) (es : List String) :
    ∀ m : List (String × List Parser),
      (lookupExt e (es.foldl (fun m x => addParserToExt m x p) m)).getD [] =
        (if ((lookupExt e m).getD []).any (fun q => q.pid = p.pid) then
          (lookupExt e m).getD []
        else if es.contains e then (lookupExt e m).getD [] ++ [p]
        else (lookupExt e m).getD []) := by
  induction es with
  | nil =>
    intro m
    simp
  | cons e₁ es ih =>
    intro m
    rw [List.foldl_cons, ih (addParserToExt m e₁ p),
      lookupExt_addParserToExt m e₁ e p]
    by_cases h1 : e = e₁
    · subst h1
      simp only [if_pos rfl]
      by_cases h2 : ((lookupExt e m).getD []).any (fun q => q.pid = p.pid) = true
      · simp [h2, List.contains_cons]
      · rw [if_neg h2]
        have hself : ((lookupExt e m).getD [] ++ [p]).any
            (fun q => decide (q.pid = p.pid)) = true := by
          simp
        simp [hself, h2, List.contains_cons]
    · have h2 : ¬ e₁ = e := fun hh => h1 (Eq.symm hh)
      have hbne : (e₁ == e) = false := by
        simp [h2]
      simp [h1, List.contains_cons, hbne]

theorem register_all_invariant (ps : List Parser) :
    ∀ (r : Registry) (qs : List Parser),
      r.parsers = qs →
      (∀ e, ext_candidates r e = qs.filter (fun p => p.exts.contains e)) →
      (qs ++ ps).Pairwise (fun a b => a.pid ≠ b.pid) →
      (ps.foldl register r).parsers = qs ++ ps ∧
        ∀ e, ext_candidates (ps.foldl register r) e =
          (qs ++ ps).filter (fun p => p.exts.contains e) := by
  induction ps with
  | nil =>
    intro r qs h1 h2 _
    constructor
    · simpa using h1
    · intro e
      simpa using h2 e
  | cons p ps ih =>
    intro r qs h1 h2 h3
    have hfreshq : ∀ q ∈ qs, q.pid ≠ p.pid := by
      have hsplit := (List.pairwise_append.1 h3).2.2
      intro q hq
      exact hsplit q hq p (List.mem_cons_self p ps)
    have hany : (r.parsers.any (fun q => q.pid = p.pid)) = false := by
      rw [h1]
      simp only [List.any_eq_false, decide_eq_true_eq]
      exact hfreshq
    have hregp : (register r p).parsers = qs ++ [p] := by
      unfold register
      rw [hany]
      simp [h1]
    have hregc : ∀ e, ext_candidates (register r p) e =
        (qs ++ [p]).filter (fun q => q.exts.contains e) := by
      intro e
      have hcand : ext_candidates r e = qs.filter (fun q => q.exts.contains e) :=
        h2 e
      have hstep : ext_candidates (register r p) e =
          (lookupExt e (p.exts.foldl (fun m x => addParserToExt m x p)
            r.extMap)).getD [] := by
        unfold register
        rw [hany]
        rfl
      rw [hstep, foldl_addParserToExt p e p.exts r.extMap]
      have hcand' : (lookupExt e r.extMap).getD [] =
          qs.filter (fun q => q.exts.contains e) := hcand
      rw [hcand']
      have hnop : ((qs.filter (fun q => q.exts.contains e)).any
          (fun q => q.pid = p.pid)) = false := by
        simp only [List.any_eq_false, decide_eq_true_eq]
        intro q hq
        exact hfreshq q (List.mem_of_mem_filter hq)
      rw [hnop]
      simp only [Bool.false_eq_true, if_false]
      by_cases hd : e ∈ p.exts
      · simp [hd, List.filter_append]
      · simp [hd, List.filter_append]
    have h3' : ((qs ++ [p]) ++ ps).Pairwise (fun a b => a.pid ≠ b.pid) := by
      simpa [List.append_assoc] using h3
    have hrec := ih (register r p) (qs ++ [p]) hregp hregc h3'
    constructor
    · rw [List.foldl_cons, hrec.1]
      simp
    · intro e
      rw [List.foldl_cons, hrec.2 e]
      simp

theorem register_all_spec (ps : List Parser)
    (hnd : ps.Pairwise (fun a b => a.pid ≠ b.pid)) :
    (register_all ps).parsers = ps ∧
      ∀ e, ext_candidates (register_all ps) e =
        ps.filter (fun p => p.exts.contains e) := by
  have h := register_all_invariant ps ⟨[], []⟩ [] rfl
    (fun e => rfl) (by simpa using hnd)
  exact ⟨by simpa using h.1, fun e => by simpa using h.2 e⟩

/-- C5 counterexample: a registry holding a parser declaring `.txt` and one
declaring the upper-case extension `.MD` (both accepting every file).  For
a file with suffix `.MD`, a case-insensitive extension filter would keep
only the `.MD` parser and return it, but the code lowercases only the
file's suffix, finds no `.md` key, and falls back to the full scan, which
returns the `.txt` parser first. -/
theorem get_parser_for_file_counterexample :
    get_parser_for_file (register_all [parserTxt, parserUpperMd]) fileUpperMd ≠
      get_parser_for_file_claim [parserTxt, parserUpperMd] fileUpperMd := by
  intro h
  have e1 : get_parser_for_file (register_all [parserTxt, parserUpperMd])
      fileUpperMd = some parserTxt := rfl
  have e2 : get_parser_for_file_claim [parserTxt, parserUpperMd] fileUpperMd =
      some parserUpperMd := rfl
  rw [e1, e2] at h
  have hpid := congrArg (fun o => (Option.map Parser.pid o).getD 0) h
  simp [parserTxt, parserUpperMd] at hpid

/-- C5 amended: `get_parser_for_file` lowercases the file's extension and
restricts to parsers declaring exactly that lowercased extension (matching
is case-insensitive in the file's extension but verbatim against the
parser-declared extensions), returning the first of those whose `can_parse`
accepts; if none, it scans every registered parser in registration order;
if still none, it returns `none` rather than raising. -/
theorem get_parser_for_file_amended (ps : List Parser) (f : PFile)
    (hnd : ps.Pairwise (fun a b => a.pid ≠ b.pid)) :
    get_parser_for_file (register_all ps) f =
      (match (ps.filter (fun p => p.exts.contains (pyToLower f.suffix))).find?
          (fun p => p.canParse f) with
      | some p => some p
      | none => ps.find? (fun p => p.canParse f)) ∧
    ((∀ p ∈ ps, p.canParse f = false) →
      get_parser_for_file (register_all ps) f = none) := by
  obtain ⟨hp, hc⟩ := register_all_spec ps hnd
  have hmain : get_parser_for_file (register_all ps) f =
      (match (ps.filter (fun p => p.exts.contains (pyToLower f.suffix))).find?
          (fun p => p.canParse f) with
      | some p => some p
      | none => ps.find? (fun p => p.canParse f)) := by
    simp only [get_parser_for_file, hc, hp]
  refine ⟨hmain, fun hnone => ?_⟩
  rw [hmain]
  have h1 : (ps.filter (fun p => p.exts.contains (pyToLower f.suffix))).find?
      (fun p => p.canParse f) = none := by
    rw [List.find?_eq_none]
    intro p hp'
    simp [hnone p (List.mem_of_mem_filter hp')]
  have h2 : ps.find? (fun p => p.canParse f) = none := by
    rw [List.find?_eq_none]
    intro p hp'
    simp [hnone p hp']
  rw [h1, h2]

/-- Witness for C5 at the counterexample's registry: the lookup falls back
to the full scan and returns the `.txt` parser. -/
theorem get_parser_for_file_amended_witness :
    [parserTxt, parserUpperMd].Pairwise (fun a b => a.pid ≠ b.pid) ∧
    get_parser_for_file (register_all [parserTxt, parserUpperMd]) fileUpperMd =
      (match ([parserTxt, parserUpperMd].filter
          (fun p => p.exts.contains (pyToLower fileUpperMd.suffix))).find?
          (fun p => p.canParse fileUpperMd) with
      | some p => some p
      | none => [parserTxt, parserUpperMd].find? (fun p => p.canParse fileUpperMd)) := by
  have hnd : [parserTxt, parserUpperMd].Pairwise (fun a b => a.pid ≠ b.pid) := by
    simp [parserTxt, parserUpperMd]
  exact ⟨hnd, (get_parser_for_file_amended [parserTxt, parserUpperMd]
    fileUpperMd hnd).1⟩

theorem dlookup_resolve_item_paths (k : String) (d : Dict) :
    dlookup k (resolve_item_paths d) = (dlookup k d).map (resolve_entry k) := by
  induction d with
  | nil => rfl
  | cons kv d ih =>
    obtain ⟨k0, v0⟩ := kv
    by_cases hk0 : k0 = k
    · subst hk0
      simp [resolve_item_paths, dlookup]
    · have ih' := ih
      simp only [resolve_item_paths] at ih'
      simp [resolve_item_paths, dlookup, hk0, ih']

theorem resolve_entry_not_path (k : String) (hk : path_fields.contains k = false)
    (v : Val) : resolve_entry k v = v := by
  have hk' : k ∉ path_fields := by simpa using hk
  cases v <;> simp [resolve_entry, hk']

theorem dlookup_resolve_item_paths_not_path (k : String)
    (hk : path_fields.contains k = false) (d : Dict) :
    dlookup k (resolve_item_paths d) = dlookup k d := by
  rw [dlookup_resolve_item_paths]
  cases dlookup k d with
  | none => rfl
  | some v => simp [resolve_entry_not_path k hk v]

theorem dlookup_markdown_key_other (md : String → String) (t : String)
    (sk : Bool) (k k' : String) (d : Dict) (h : k' ≠ k) :
    dlookup k' (process_markdown_key md t sk k d) = dlookup k' d := by
  cases hl : dlookup k d with
  | none => simp [process_markdown_key, hl]
  | some v =>
    cases v with
    | vstr s =>
      simp only [process_markdown_key, hl]
      by_cases h1 : (s != "") = true
      · rw [if_pos h1]
        by_cases h2 : (sk && (k == "content")) = true
        · rw [if_pos h2]
        · rw [if_neg h2]
          by_cases h3 : ((t == "service_item") && (k == "description")) = true
          · rw [if_pos h3]
          · rw [if_neg h3]
            exact dlookup_dset_other d k k' _ h
      · rw [if_neg h1]
    | vbool b => simp [process_markdown_key, hl]
    | vnone => simp [process_markdown_key, hl]
    | vlist l => simp [process_markdown_key, hl]

theorem dlookup_markdown_phase_other (md : String → String) (t : String)
    (k' : String) (d : Dict) (h1 : k' ≠ "content") (h2 : k' ≠ "description")
    (h3 : k' ≠ "excerpt") :
    dlookup k' (markdown_phase md t d) = dlookup k' d := by
  unfold markdown_phase
  rw [dlookup_markdown_key_other _ _ _ _ _ _ h3,
    dlookup_markdown_key_other _ _ _ _ _ _ h2,
    dlookup_markdown_key_other _ _ _ _ _ _ h1]

theorem dlookup_store_raw_other (k' : String) (h : k' ≠ "content_raw")
    (item : Dict) : dlookup k' (store_raw item) = dlookup k' item := by
  unfold store_raw
  cases h1 : dlookup "content" item with
  | none => rfl
  | some v =>
    cases h2 : dlookup "content_raw" item with
    | none => exact dlookup_dset_other item _ _ _ h
    | some w => rfl

theorem dlookup_pre_phases (md : String → String) (t : String) (k' : String)
    (item : Dict) (h0 : k' ≠ "content_raw")
    (hp : path_fields.contains k' = false) (h1 : k' ≠ "content")
    (h2 : k' ≠ "description") (h3 : k' ≠ "excerpt") :
    dlookup k' (markdown_phase md t (resolve_item_paths (store_raw item))) =
      dlookup k' item := by
  rw [dlookup_markdown_phase_other _ _ _ _ h1 h2 h3,
    dlookup_resolve_item_paths_not_path _ hp, dlookup_store_raw_other _ h0]

/-- C10: `_process_items` is a per-item map — same length, same order —
and each produced item carries a `template_type` key equal to its truthy
`template_name` (else the caller-supplied `item_type`) and a
`rendered_schema` key that is a string, non-empty only when an SEO
generator was supplied and the item type is `publication_item` or
`project_item`. -/
theorem process_items_shape (md : String → String)
    (render : Val → Dict → String) (seo : Option SeoGen) (item_type : String)
    (items : List Dict) :
    process_items md render seo item_type items =
        items.map (process_item md render seo item_type) ∧
    (process_items md render seo item_type items).length = items.length ∧
    ∀ item : Dict,
      dlookup "template_type" (process_item md render seo item_type item) =
          some (template_type_of item_type item) ∧
      ∃ s, dlookup "rendered_schema"
            (process_item md render seo item_type item) = some (.vstr s) ∧
        (s ≠ "" → seo.isSome = true ∧
          (item_type = "publication_item" ∨ item_type = "project_item")) := by
  refine ⟨rfl, by simp [process_items], fun item => ?_⟩
  have hname : dlookup "template_name"
      (markdown_phase md item_type (resolve_item_paths (store_raw item))) =
      dlookup "template_name" item :=
    dlookup_pre_phases md item_type "template_name" item (by decide) (by decide)
      (by decide) (by decide) (by decide)
  have htt : template_type_of item_type
      (markdown_phase md item_type (resolve_item_paths (store_raw item))) =
      template_type_of item_type item := by
    unfold template_type_of
    rw [hname]
  simp only [process_item]
  set d5 := markdown_phase md item_type (resolve_item_paths (store_raw item))
    with hd5
  set tt := template_type_of item_type d5 with httd
  set d6 := dset d5 "template_type" tt with hd6
  set d7 := (if tt.truthy then dset d6 "rendered_html" (.vstr (render tt d6))
    else d6) with hd7
  set d8 := dset d7 "rendered_schema" (.vstr "") with hd8
  have f6 : dlookup "template_type" d6 = some tt := dlookup_dset_self d5 _ _
  have f7 : dlookup "template_type" d7 = some tt := by
    rw [hd7]
    split
    · rw [dlookup_dset_other d6 _ _ _ (by decide)]
      exact f6
    · exact f6
  have f8 : dlookup "template_type" d8 = some tt := by
    rw [hd8, dlookup_dset_other d7 _ _ _ (by decide)]
    exact f7
  have fs8 : dlookup "rendered_schema" d8 = some (.vstr "") :=
    dlookup_dset_self d7 _ _
  cases seo with
  | none =>
    dsimp only
    refine ⟨by rw [f8, htt], "", fs8, fun hs => absurd rfl hs⟩
  | some g =>
    dsimp only
    by_cases hpub : (item_type == "publication_item") = true
    · rw [if_pos hpub]
      refine ⟨?_, g.article d8, dlookup_dset_self d8 _ _, fun _ => ?_⟩
      · rw [dlookup_dset_other d8 _ _ _ (by decide), f8, htt]
      · exact ⟨rfl, Or.inl (by simpa using hpub)⟩
    · rw [if_neg hpub]
      by_cases hproj : (item_type == "project_item") = true
      · rw [if_pos hproj]
        refine ⟨?_, g.app d8, dlookup_dset_self d8 _ _, fun _ => ?_⟩
        · rw [dlookup_dset_other d8 _ _ _ (by decide), f8, htt]
        · exact ⟨rfl, Or.inr (by simpa using hproj)⟩
      · rw [if_neg hproj]
        refine ⟨by rw [f8, htt], "", fs8, fun hs => absurd rfl hs⟩

/-- Witness for C10 (the per-item key facts have conditional parts): a
concrete news item with no `template_name` gets `template_type` equal to
the caller-supplied item type and an empty `rendered_schema`. -/
theorem process_items_shape_witness :
    dlookup "template_type"
        (process_item (fun s => s) (fun _ _ => "") none "news_item"
          [("content", Val.vstr "hi")]) =
      some (template_type_of "news_item" [("content", Val.vstr "hi")]) ∧
    ∃ s, dlookup "rendered_schema"
        (process_item (fun s => s) (fun _ _ => "") none "news_item"
          [("content", Val.vstr "hi")]) = some (.vstr s) ∧
      (s ≠ "" → (none : Option SeoGen).isSome = true ∧
        ("news_item" = "publication_item" ∨ "news_item" = "project_item")) :=
  (process_items_shape (fun s => s) (fun _ _ => "") none "news_item" []).2.2
    [("content", Val.vstr "hi")]

theorem dlookup_process_item_pre (md : String → String)
    (render : Val → Dict → String) (seo : Option SeoGen) (t : String)
    (item : Dict) (k' : String) (hk1 : k' ≠ "template_type")
    (hk2 : k' ≠ "rendered_html") (hk3 : k' ≠ "rendered_schema") :
    dlookup k' (process_item md render seo t item) =
      dlookup k' (markdown_phase md t (resolve_item_paths (store_raw item))) := by
  simp only [process_item]
  set d5 := markdown_phase md t (resolve_item_paths (store_raw item)) with hd5
  set tt := template_type_of t d5 with httd
  set d6 := dset d5 "template_type" tt with hd6
  set d7 := (if tt.truthy then dset d6 "rendered_html" (.vstr (render tt d6))
    else d6) with hd7
  set d8 := dset d7 "rendered_schema" (.vstr "") with hd8
  have g6 : dlookup k' d6 = dlookup k' d5 := dlookup_dset_other d5 _ _ _ hk1
  have g7 : dlookup k' d7 = dlookup k' d5 := by
    rw [hd7]
    split
    · rw [dlookup_dset_other d6 _ _ _ hk2]
      exact g6
    · exact g6
  have g8 : dlookup k' d8 = dlookup k' d5 := by
    rw [hd8, dlookup_dset_other d7 _ _ _ hk3]
    exact g7
  cases seo with
  | none =>
    dsimp only
    exact g8
  | some g =>
    dsimp only
    by_cases hpub : (t == "publication_item") = true
    · rw [if_pos hpub, dlookup_dset_other d8 _ _ _ hk3]
      exact g8
    · rw [if_neg hpub]
      by_cases hproj : (t == "project_item") = true
      · rw [if_pos hproj, dlookup_dset_other d8 _ _ _ hk3]
        exact g8
      · rw [if_neg hproj]
        exact g8

/-- C3: the item processor preserves the original content under the
`content_raw` key before any transformation; processing the same raw
record twice (with state reset) yields identical results, `rendered_html`
included; and the processed `content` field is the content processor
applied exactly once to the raw content (never twice), so no field carries
a previous run's partially-transformed HTML. -/
theorem process_item_idempotent (md : String → String)
    (render : Val → Dict → String) (seo : Option SeoGen) (item_type : String)
    (item : Dict) (c : String)
    (hc : dlookup "content" item = some (.vstr c))
    (hraw : dlookup "content_raw" item = none) :
    dlookup "content_raw" (process_item md render seo item_type item) =
        some (.vstr c) ∧
    (∀ run1 run2 : Dict,
      run1 = process_item md render seo item_type item →
      run2 = process_item md render seo item_type item →
      run1 = run2 ∧
        dlookup "rendered_html" run1 = dlookup "rendered_html" run2) ∧
    (item_type ≠ "blog_post_item" →
      (∀ v, dlookup "content_type" item = some v →
        v ≠ Val.vstr "blog_post_item") →
      c ≠ "" →
      dlookup "content" (process_item md render seo item_type item) =
        some (.vstr (md c))) := by
  have hstore : store_raw item = dset item "content_raw" (.vstr c) := by
    unfold store_raw
    rw [hc, hraw]
  refine ⟨?_, ?_, ?_⟩
  · rw [dlookup_process_item_pre md render seo item_type item "content_raw"
      (by decide) (by decide) (by decide)]
    rw [dlookup_markdown_phase_other md item_type "content_raw" _
      (by decide) (by decide) (by decide)]
    rw [hstore, dlookup_resolve_item_paths, dlookup_dset_self]
    simp [resolve_entry_not_path "content_raw" (by decide)]
  · rintro run1 run2 rfl rfl
    exact ⟨rfl, rfl⟩
  · intro ht hctv hcne
    have hcd2 : dlookup "content" (resolve_item_paths (store_raw item)) =
        some (.vstr c) := by
      rw [hstore, dlookup_resolve_item_paths,
        dlookup_dset_other item _ _ _ (by decide), hc]
      simp [resolve_entry_not_path "content" (by decide)]
    have hct2 : dlookup "content_type" (resolve_item_paths (store_raw item)) =
        (dlookup "content_type" item).map (resolve_entry "content_type") := by
      rw [hstore, dlookup_resolve_item_paths,
        dlookup_dset_other item _ _ _ (by decide)]
    have hskipb : ((item_type == "blog_post_item") ||
        (((dlookup "content_type" (resolve_item_paths (store_raw item))).getD
          (.vstr item_type)) == Val.vstr "blog_post_item")) = false := by
      have h1 : (item_type == "blog_post_item") = false := by
        simp [ht]
      have h2 : (((dlookup "content_type"
          (resolve_item_paths (store_raw item))).getD
          (.vstr item_type)) == Val.vstr "blog_post_item") = false := by
        rw [hct2]
        cases hcv : dlookup "content_type" item with
        | none => simp [ht]
        | some v =>
          have hv := hctv v hcv
          have hre : resolve_entry "content_type" v = v :=
            resolve_entry_not_path _ (by decide) v
          simp [hre, hv]
      simp [h1, h2]
    rw [dlookup_process_item_pre md render seo item_type item "content"
      (by decide) (by decide) (by decide)]
    simp only [markdown_phase]
    rw [hskipb]
    rw [dlookup_markdown_key_other _ _ _ _ _ _ (by decide),
      dlookup_markdown_key_other _ _ _ _ _ _ (by decide)]
    simp only [process_markdown_key, hcd2]
    have hcb : (c != "") = true := by simpa using hcne
    rw [if_pos hcb]
    have hf1 : ((false : Bool) && ("content" == "content")) = true ↔ False := by
      simp
    rw [if_neg (by simp)]
    rw [if_neg (by simp)]
    exact dlookup_dset_self _ _ _

/-- Witness for C3: a concrete news item whose content is transformed by a
tagging processor once, with the raw content preserved under
`content_raw`. -/
theorem process_item_idempotent_witness :
    dlookup "content" [("content", Val.vstr "hello")] =
        some (Val.vstr "hello") ∧
    dlookup "content_raw"
        (process_item (fun s => "<p>" ++ s ++ "</p>") (fun _ _ => "H") none
          "news_item" [("content", Val.vstr "hello")]) =
      some (Val.vstr "hello") ∧
    dlookup "content"
        (process_item (fun s => "<p>" ++ s ++ "</p>") (fun _ _ => "H") none
          "news_item" [("content", Val.vstr "hello")]) =
      some (Val.vstr "<p>hello</p>") := by
  have h := process_item_idempotent (fun s => "<p>" ++ s ++ "</p>")
    (fun _ _ => "H") none "news_item" [("content", Val.vstr "hello")] "hello"
    (by decide) (by decide)
  refine ⟨by decide, h.1, ?_⟩
  exact h.2.2 (by decide) (fun v hv => by simp [dlookup] at hv) (by decide)

/-- C4: bio loading's fallback chain — when the bio entry file is absent or
its parse fails (no parser found, or `parse_file` reported failure with an
empty result), the result is the site-configuration author fallback, or the
all-empty default when the configuration has no author; and on every input
the result is one of the three handled outcomes (validated bio, config
fallback, empty default), so bio loading never raises. -/
theorem safe_parse_bio_data_correct (parserFound : Bool)
    (parse_result : Option BioRaw) (validate : Dict → Option Dict)
    (cfg_author : Option AuthorView) :
    ((parserFound = false ∨ parse_result = none) →
      safe_parse_bio_data parserFound parse_result validate cfg_author =
        match cfg_author with
        | some a => bio_from_config a
        | none => bio_empty) ∧
    ((∃ d, validate d =
        some (safe_parse_bio_data parserFound parse_result validate cfg_author)) ∨
      (∃ a, cfg_author = some a ∧
        safe_parse_bio_data parserFound parse_result validate cfg_author =
          bio_from_config a) ∨
      safe_parse_bio_data parserFound parse_result validate cfg_author =
        bio_empty) := by
  constructor
  · intro h
    have hnone : (if parserFound then parse_result else none) = none := by
      rcases h with h | h
      · simp [h]
      · cases parserFound <;> simp [h]
    unfold safe_parse_bio_data
    rw [hnone]
  · unfold safe_parse_bio_data
    cases hif : (if parserFound then parse_result else none) with
    | none =>
      cases cfg_author with
      | some a => exact Or.inr (Or.inl ⟨a, rfl, rfl⟩)
      | none => exact Or.inr (Or.inr rfl)
    | some raw =>
      cases cfg_author with
      | none => exact Or.inr (Or.inr rfl)
      | some a =>
        dsimp only
        set bd := dset raw.metadata "bio" (Val.vstr raw.content) with hbd
        set bd2 := (match a.interests with
          | some ints => dset bd "interests" (.vlist ints)
          | none =>
            if (dlookup "interests" bd).isSome then bd
            else dset bd "interests" (.vlist [])) with hbd2
        cases hv : validate bd2 with
        | some b => exact Or.inl ⟨bd2, by rw [hv]⟩
        | none => exact Or.inr (Or.inr rfl)

/-- Witness for C4: no parser found for the bio file; the result is the
config-author fallback. -/
theorem safe_parse_bio_data_correct_witness :
    ((false : Bool) = false ∨ (none : Option BioRaw) = none) ∧
    safe_parse_bio_data false none (fun _ => none)
        (some ⟨some ["ml"], some "Prof", some "Uni"⟩) =
      bio_from_config ⟨some ["ml"], some "Prof", some "Uni"⟩ :=
  ⟨Or.inl rfl, by
    have h := (safe_parse_bio_data_correct false none (fun _ => none)
      (some ⟨some ["ml"], some "Prof", some "Uni"⟩)).1 (Or.inl rfl)
    simpa using h⟩

/-- C8: for a blog-post item with a non-empty string excerpt,
`generate_meta_description` returns the excerpt with HTML tags stripped,
capped at 155 characters, with an ellipsis appended exactly when the
stripped excerpt exceeds 155 characters (so the stripped excerpt is
returned whole when it fits, and the output never exceeds 158 characters);
the homepage page type returns the site description verbatim. -/
theorem generate_meta_description_correct (cfg : SeoCfg) (it : Dict)
    (e : String) (he : dlookup "excerpt" it = some (.vstr e)) (hne : e ≠ "") :
    (generate_meta_description cfg "blog_post" (some it) =
        pyTake (strip_html_tags e) 155 ++
          (if 155 < pyLen (strip_html_tags e) then "..." else "")) ∧
    (pyLen (strip_html_tags e) ≤ 155 →
      generate_meta_description cfg "blog_post" (some it) =
        strip_html_tags e) ∧
    pyLen (generate_meta_description cfg "blog_post" (some it)) ≤ 158 ∧
    (∀ item, generate_meta_description cfg "homepage" item =
      cfg.site_description) := by
  have hit : (it != ([] : Dict)) = true := by
    cases it with
    | nil => simp [dlookup] at he
    | cons a l => simp
  have hmain : generate_meta_description cfg "blog_post" (some it) =
      pyTake (strip_html_tags e) 155 ++
        (if 155 < pyLen (strip_html_tags e) then "..." else "") := by
    simp only [generate_meta_description]
    rw [if_neg (by decide), if_neg (by decide), if_neg (by decide),
      if_pos (by simp [hit])]
    dsimp only [Option.getD]
    rw [he]
    have hcb : (e != "") = true := by simpa using hne
    dsimp only
    rw [if_pos hcb]
  refine ⟨hmain, ?_, ?_, fun item => rfl⟩
  · intro hle
    rw [hmain, if_neg (by omega)]
    have htake : pyTake (strip_html_tags e) 155 = strip_html_tags e := by
      unfold pyTake
      rw [List.take_of_length_le hle]
    rw [htake, String.append_empty]
  · rw [hmain]
    have hlen : pyLen (pyTake (strip_html_tags e) 155 ++
        (if 155 < pyLen (strip_html_tags e) then "..." else "")) =
        pyLen (pyTake (strip_html_tags e) 155) +
          pyLen (if 155 < pyLen (strip_html_tags e) then "..." else "") := by
      simp [pyLen, String.data_append]
    rw [hlen]
    have h1 : pyLen (pyTake (strip_html_tags e) 155) ≤ 155 := by
      simp [pyLen, pyTake]
    have h2 : pyLen (if 155 < pyLen (strip_html_tags e) then "..." else "") ≤ 3 := by
      split <;> simp [pyLen]
    omega

/-- Witness for C8: a concrete blog post whose excerpt holds one HTML tag
pair; the meta description is the tag-stripped excerpt. -/
theorem generate_meta_description_correct_witness :
    dlookup "excerpt" [("excerpt", Val.vstr "<b>Hi</b> there")] =
        some (Val.vstr "<b>Hi</b> there") ∧
    generate_meta_description ⟨"A Author", ["ml"], "Site desc"⟩ "blog_post"
        (some [("excerpt", Val.vstr "<b>Hi</b> there")]) = "Hi there" ∧
    generate_meta_description ⟨"A Author", ["ml"], "Site desc"⟩ "homepage"
        none = "Site desc" := by
  have h := generate_meta_description_correct ⟨"A Author", ["ml"], "Site desc"⟩
    [("excerpt", Val.vstr "<b>Hi</b> there")] "<b>Hi</b> there"
    (by decide) (by decide)
  have hstrip : strip_html_tags "<b>Hi</b> there" = "Hi there" := by
    have hl : stripTagsList "<b>Hi</b> there".data = "Hi there".data := by
      simp [stripTagsList, findClose, findCloseGo]
    simp [strip_html_tags, hl]
  have hlen : pyLen (strip_html_tags "<b>Hi</b> there") ≤ 155 := by
    rw [hstrip]
    simp [pyLen]
  refine ⟨by decide, ?_, h.2.2.2 none⟩
  rw [h.2.1 hlen, hstrip]

end Zenfolio
